import Mathlib

/-!
# Verification of the robotheus record tracker and collector

Shallow embedding of `robotheus` (usage/cost metrics collector):
* `record_tracker.py` — the deduplication / delta tracker,
* `collector.py` — the per-provider collection stage and the scrape loop,
* `metrics.py` — the metrics sink, modelled as an event log.

USD amounts are embedded as rationals (`ℚ`); unix timestamps as `Nat`
(window starts and ends) or `Int` (scrape-loop arithmetic, which may go
negative); Python's `dict` (insertion-ordered, unique keys) as an
association list.
-/

namespace Robotheus

/-- USD amounts, embedded as rationals. -/
abbrev Amount := ℚ

/-- A value stored by the tracker: a usage entry remembers its window
start; a cost entry remembers its window start and the last applied
amount (the spec's "last-applied value"). -/
inductive TrackedValue where
  | usage (time_frame_start : Nat)
  | cost (time_frame_start : Nat) (last_amount : Amount)
  deriving DecidableEq

/-- The stored window-start of a tracker entry, used for eviction ordering. -/
def TrackedValue.ts : TrackedValue → Nat
  | .usage t => t
  | .cost t _ => t

/-- The last-applied amount of a tracker entry. Cost keys never collide with
usage keys when field values are separator-free, so a `usage` entry is never
read through this accessor in any reachable state; it reads as `0` there. -/
def TrackedValue.last : TrackedValue → Amount
  | .usage _ => 0
  | .cost _ a => a

/-- `RecordTracker` from `record_tracker.py`: the `_seen` dict mapping
deduplication keys to tracked values, embedded as an insertion-ordered
association list with unique keys. -/
structure RecordTracker where
  seen : List (String × TrackedValue)
  deriving DecidableEq

/-- `RecordTracker.__init__`: the empty store. -/
def RecordTracker.init : RecordTracker := ⟨[]⟩

/-- `RecordTracker._make_usage_key`:
`f"{provider}|{model}|{project}|{api_key_id}|{time_frame_start}"`. -/
def RecordTracker.mkUsageKey (provider model project api_key_id : String)
    (time_frame_start : Nat) : String :=
  provider ++ "|" ++ model ++ "|" ++ project ++ "|" ++ api_key_id ++ "|"
    ++ toString time_frame_start

/-- `RecordTracker._make_cost_key`:
`f"{provider}|cost|{project}|{time_frame_start}"`. -/
def RecordTracker.mkCostKey (provider project : String)
    (time_frame_start : Nat) : String :=
  provider ++ "|cost|" ++ project ++ "|" ++ toString time_frame_start

/-- `RecordTracker.is_new_usage`: if the usage key is absent, insert it
mapped to `time_frame_start` and return `true`; else return `false`.
Returns the decision together with the updated tracker. -/
def RecordTracker.is_new_usage (t : RecordTracker)
    (provider model project api_key_id : String)
    (time_frame_start : Nat) : Bool × RecordTracker :=
  let key := RecordTracker.mkUsageKey provider model project api_key_id
    time_frame_start
  match t.seen.lookup key with
  | some _ => (false, t)
  | none => (true, ⟨t.seen ++ [(key, .usage time_frame_start)]⟩)

/-- `RecordTracker.is_new_cost` (present in `record_tracker.py`): boolean
admission for a cost time frame, analogous to `is_new_usage`. -/
def RecordTracker.is_new_cost (t : RecordTracker)
    (provider project : String) (time_frame_start : Nat) : Bool × RecordTracker :=
  let key := RecordTracker.mkCostKey provider project time_frame_start
  match t.seen.lookup key with
  | some _ => (false, t)
  | none => (true, ⟨t.seen ++ [(key, .cost time_frame_start 0)]⟩)

/-- Modelled from the spec: `RecordTracker.cost_delta(provider, project,
time_frame_start, amount)` is called by `collector.py` and exercised by the
test suite but its definition is missing from `record_tracker.py` in the
source tree. Per the spec: computes the cost key; if absent, inserts
`amount` as the baseline and returns `amount`; if present with last-applied
value `v`, returns `max(amount - v, 0)` and updates the stored value to
`amount` exactly when the delta is positive (a non-positive delta leaves
the stored baseline unchanged). The stored entry keeps the window start
for eviction ordering. -/
def RecordTracker.cost_delta (t : RecordTracker) (provider project : String)
    (time_frame_start : Nat) (amount : Amount) : Amount × RecordTracker :=
  let key := RecordTracker.mkCostKey provider project time_frame_start
  match t.seen.lookup key with
  | none => (amount, ⟨t.seen ++ [(key, .cost time_frame_start amount)]⟩)
  | some v =>
    let delta := max (amount - v.last) 0
    if 0 < delta then
      (delta, ⟨t.seen.map fun kv =>
        if kv.1 = key then (key, .cost time_frame_start amount) else kv⟩)
    else
      (delta, t)

/-- `RecordTracker.evict_before`: removes every entry whose stored
window-start is strictly less than `cutoff`; returns the number removed
together with the updated tracker. -/
def RecordTracker.evict_before (t : RecordTracker) (cutoff : Nat) :
    Nat × RecordTracker :=
  let to_remove := t.seen.filter fun kv => kv.2.ts < cutoff
  (to_remove.length, ⟨t.seen.filter fun kv => !(decide (kv.2.ts < cutoff))⟩)

/-- `UsageRecord` from `models.py`. -/
structure UsageRecord where
  provider : String
  model : String
  project : String
  api_key_id : String
  input_tokens : Nat
  output_tokens : Nat
  request_count : Nat
  time_frame_start : Nat
  time_frame_end : Nat
  deriving DecidableEq

/-- `CostRecord` from `models.py`. -/
structure CostRecord where
  provider : String
  project : String
  amount_usd : Amount
  time_frame_start : Nat
  time_frame_end : Nat
  deriving DecidableEq

/-- One call made by the collector on the metrics sink (`MetricsUpdater`),
recorded as an event. A collection run is summarised by its event log. -/
inductive SinkEvent where
  | updateUsage (record : UsageRecord)
  | updateCost (record : CostRecord) (delta : Amount)
  | scrapeError (provider stage : String)
  | observeDuration (provider : String)
  | lastScrapeSuccess (provider : String)
  deriving DecidableEq

/-- A provider as the collector sees it (`AIProvider`): a name, two fetch
operations that either return records or raise, and a `close` that may
raise. -/
structure ProviderModel where
  name : String
  fetch_usage : Int → Int → Except Unit (List UsageRecord)
  fetch_costs : Int → Int → Except Unit (List CostRecord)
  close : Except Unit Unit

/-- The usage loop of `Collector._collect_provider`: walk the fetched
usage records in order; skip records whose window has not elapsed
(`time_frame_end > now`); otherwise ask the tracker to admit the record
and, if admitted, call `update_usage` on the sink. `sinkFails r = true`
means the sink raises on `update_usage r`; the whole loop sits inside the
usage `try`, so a raise aborts the remaining records. Returns the tracker,
the sink events emitted before any raise, and whether a raise occurred. -/
def processUsage (tracker : RecordTracker) (now : Nat)
    (sinkFails : UsageRecord → Bool) :
    List UsageRecord → RecordTracker × List SinkEvent × Bool
  | [] => (tracker, [], false)
  | r :: rest =>
    if r.time_frame_end > now then
      processUsage tracker now sinkFails rest
    else
      let res := tracker.is_new_usage r.provider r.model r.project r.api_key_id
        r.time_frame_start
      if res.1 then
        if sinkFails r then
          (res.2, [], true)
        else
          let res2 := processUsage res.2 now sinkFails rest
          (res2.1, .updateUsage r :: res2.2.1, res2.2.2)
      else
        processUsage res.2 now sinkFails rest

/-- The cost loop of `Collector._collect_provider`: walk the fetched cost
records in order; skip records whose window has not elapsed; otherwise ask
the tracker for the delta and, when the delta is strictly positive, call
`update_cost(record, delta)` on the sink. -/
def processCosts (tracker : RecordTracker) (now : Nat) :
    List CostRecord → RecordTracker × List SinkEvent
  | [] => (tracker, [])
  | r :: rest =>
    if r.time_frame_end > now then
      processCosts tracker now rest
    else
      let res := tracker.cost_delta r.provider r.project
        r.time_frame_start r.amount_usd
      let res2 := processCosts res.2 now rest
      if res.1 > 0 then (res2.1, .updateCost r res.1 :: res2.2)
      else (res2.1, res2.2)

/-- `Collector._collect_provider`: the usage stage (fetch, then the usage
loop) under its own exception handler, then the cost stage under its own
handler, then `observe_scrape_duration`, and `set_last_scrape_success`
only if neither stage errored. A fetch raising, or the usage sink raising,
is caught and surfaced as an `inc_scrape_error` event for that stage. -/
def collectProvider (p : ProviderModel) (start_time end_time : Int) (now : Nat)
    (tracker : RecordTracker) (sinkFails : UsageRecord → Bool) :
    RecordTracker × List SinkEvent :=
  let usageStage : RecordTracker × List SinkEvent × Bool :=
    match p.fetch_usage start_time end_time with
    | .error _ => (tracker, [.scrapeError p.name "usage"], true)
    | .ok records =>
      let res := processUsage tracker now sinkFails records
      if res.2.2 then (res.1, res.2.1 ++ [.scrapeError p.name "usage"], true)
      else (res.1, res.2.1, false)
  let costStage : RecordTracker × List SinkEvent × Bool :=
    match p.fetch_costs start_time end_time with
    | .error _ => (usageStage.1, [.scrapeError p.name "cost"], true)
    | .ok records =>
      let res := processCosts usageStage.1 now records
      (res.1, res.2, false)
  let had_error := usageStage.2.2 || costStage.2.2
  (costStage.1, usageStage.2.1 ++ costStage.2.1 ++ [.observeDuration p.name]
    ++ if had_error then [] else [.lastScrapeSuccess p.name])

/-- `Collector.close`: `for p in providers: await p.close()`. Returns the
names of the providers whose `close` was invoked, in order, and whether an
exception escaped (aborting the remaining closes). -/
def collectorClose : List ProviderModel → List String × Bool
  | [] => ([], false)
  | p :: ps =>
    match p.close with
    | .error _ => ([p.name], true)
    | .ok _ =>
      let (called, escaped) := collectorClose ps
      (p.name :: called, escaped)

/-- The fetch window of one cycle of `Collector.run`:
`start = last_scrape`, `end = last_scrape + interval`. -/
def cycleWindow (last_scrape interval : Int) : Int × Int :=
  (last_scrape, last_scrape + interval)

/-- `Collector.run` advances `last_scrape` to the cycle's end after the
per-provider tasks finish; `lastScrapeAfter init interval k` is the value
of `last_scrape` at the start of cycle `k` (0-based) when the loop entered
with `last_scrape = init`. -/
def lastScrapeAfter (init interval : Int) : Nat → Int
  | 0 => init
  | k + 1 => (cycleWindow (lastScrapeAfter init interval k) interval).2

/-- The fetch window of cycle `k` of `Collector.run`. -/
def windowOfCycle (init interval : Int) (k : Nat) : Int × Int :=
  cycleWindow (lastScrapeAfter init interval k) interval

/-- `Collector.run` initialises `last_scrape = int(time.time()) - interval`
before the first cycle. -/
def initialLastScrape (now interval : Int) : Int := now - interval

/-- Membership of a timestamp in a half-open window `[start, end)`. -/
def inWindow (w : Int × Int) (x : Int) : Prop := w.1 ≤ x ∧ x < w.2

/-- Modelled from the spec: the sink's cost counter state — for each
`(provider, project)` label pair, the current value of the cost-in-USD
counter. (`metrics.py` in the source tree holds an earlier one-argument
`update_cost`; the two-argument operation the collector calls is specified
but missing from the tree.) -/
def CostCounters := String × String → Amount

/-- Modelled from the spec: `MetricsUpdater.update_cost(record, delta)`
increments the cost-in-USD counter keyed by provider and project by
`delta` (not the record's raw cumulative amount). -/
def MetricsUpdater.update_cost (c : CostCounters) (record : CostRecord)
    (delta : Amount) : CostCounters :=
  fun pp =>
    if pp = (record.provider, record.project) then c pp + delta else c pp

/-- Replay the `update_cost` calls of an event log against the sink's cost
counters. -/
def applyCostEvents (c : CostCounters) : List SinkEvent → CostCounters
  | [] => c
  | .updateCost r d :: es => applyCostEvents (MetricsUpdater.update_cost c r d) es
  | _ :: es => applyCostEvents c es

/-- A provider whose fetches always raise. -/
def failingProvider : ProviderModel :=
  { name := "failing"
    fetch_usage := fun _ _ => .error ()
    fetch_costs := fun _ _ => .error ()
    close := .ok () }

/-- A provider returning one usage record whose sink application will
raise. -/
def oneRecordProvider : ProviderModel :=
  { name := "mock"
    fetch_usage := fun _ _ =>
      .ok [⟨"openai", "gpt-4o", "proj-1", "key-1", 10, 5, 1, 0, 50⟩]
    fetch_costs := fun _ _ => .ok []
    close := .ok () }

/-- A provider whose `close` raises. -/
def badCloseProvider : ProviderModel :=
  { name := "bad"
    fetch_usage := fun _ _ => .ok []
    fetch_costs := fun _ _ => .ok []
    close := .error () }

/-- A provider whose `close` succeeds. -/
def goodCloseProvider : ProviderModel :=
  { name := "good"
    fetch_usage := fun _ _ => .ok []
    fetch_costs := fun _ _ => .ok []
    close := .ok () }

/-! ### Facts about the pipe-joined key strings -/

/-- A string that does not contain the key separator `|`. -/
def sepFree (s : String) : Prop := '|' ∉ s.data

instance (s : String) : Decidable (sepFree s) := by
  unfold sepFree; infer_instance

/-- Splitting at the first separator is unambiguous when the leading
segments are separator-free. -/
theorem append_sep_cancel : ∀ {a b x y : List Char}, '|' ∉ a → '|' ∉ b →
    a ++ '|' :: x = b ++ '|' :: y → a = b ∧ x = y := by
  intro a
  induction a with
  | nil =>
    intro b x y _ hb h
    cases b with
    | nil => simpa using h
    | cons c bs =>
      simp only [List.nil_append, List.cons_append, List.cons.injEq] at h
      exact absurd (h.1 ▸ List.mem_cons_self c bs) hb
  | cons c as ih =>
    intro b x y ha hb h
    cases b with
    | nil =>
      simp only [List.cons_append, List.nil_append, List.cons.injEq] at h
      exact absurd (h.1 ▸ List.mem_cons_self c as) ha
    | cons d bs =>
      simp only [List.cons_append, List.cons.injEq] at h
      obtain ⟨hcd, htail⟩ := h
      have ha2 : '|' ∉ as := fun hm => ha (List.mem_cons_of_mem c hm)
      have hb2 : '|' ∉ bs := fun hm => hb (List.mem_cons_of_mem d hm)
      obtain ⟨h1, h2⟩ := ih ha2 hb2 htail
      exact ⟨by simp [hcd, h1], h2⟩

/-- The accumulator argument of `Nat.toDigitsCore` is appended after the
digits of `n`. -/
theorem toDigitsCore_eq_append (b : Nat) :
    ∀ (f n : Nat) (l : List Char),
      Nat.toDigitsCore b f n l = Nat.toDigitsCore b f n [] ++ l := by
  intro f
  induction f with
  | zero => intro n l; simp [Nat.toDigitsCore]
  | succ f ih =>
    intro n l
    simp only [Nat.toDigitsCore]
    by_cases h : n / b = 0
    · simp [h]
    · simp only [h, if_false]
      rw [ih (n / b) ((n % b).digitChar :: l), ih (n / b) [(n % b).digitChar]]
      simp

/-- The numeric value of a decimal digit character. -/
def digitVal (c : Char) : Nat := c.toNat - '0'.toNat

/-- The number denoted by a big-endian list of decimal digit characters. -/
def charsVal (l : List Char) : Nat :=
  l.foldl (fun a c => a * 10 + digitVal c) 0

theorem charsVal_append_singleton (l : List Char) (c : Char) :
    charsVal (l ++ [c]) = charsVal l * 10 + digitVal c := by
  simp [charsVal, List.foldl_append]

theorem digitVal_digitChar : ∀ m, m < 10 → digitVal (Nat.digitChar m) = m := by
  decide

/-- `Nat.toDigitsCore` base 10 writes the decimal expansion: reading it back
gives `n`, provided there is enough fuel. -/
theorem charsVal_toDigitsCore :
    ∀ (f n : Nat), n < f → charsVal (Nat.toDigitsCore 10 f n []) = n := by
  intro f
  induction f with
  | zero => intro n h; omega
  | succ f ih =>
    intro n h
    simp only [Nat.toDigitsCore]
    by_cases h0 : n / 10 = 0
    · have hn : n < 10 := by omega
      simp only [h0, if_true]
      have : charsVal [(n % 10).digitChar] = digitVal ((n % 10).digitChar) := by
        simp [charsVal]
      rw [this, digitVal_digitChar _ (Nat.mod_lt n (by norm_num))]
      omega
    · rw [if_neg h0, toDigitsCore_eq_append, charsVal_append_singleton,
        digitVal_digitChar _ (Nat.mod_lt n (by omega)), ih]
      · omega
      · have hpos : 0 < n := by
          rcases Nat.eq_zero_or_pos n with h1 | h1
          · exact absurd (by simp [h1]) h0
          · exact h1
        have := Nat.div_lt_self hpos (by norm_num : 1 < 10)
        omega

/-- `Nat.repr` is injective. -/
theorem nat_repr_injective {m n : Nat} (h : Nat.repr m = Nat.repr n) : m = n := by
  have hd : Nat.toDigits 10 m = Nat.toDigits 10 n := congrArg String.data h
  have hm := charsVal_toDigitsCore (m + 1) m (Nat.lt_succ_self m)
  have hn := charsVal_toDigitsCore (n + 1) n (Nat.lt_succ_self n)
  unfold Nat.toDigits at hd
  rw [← hm, ← hn, hd]

/-- Every character emitted by `Nat.toDigitsCore` base 10 either comes from
the accumulator or is a digit character. -/
theorem mem_toDigitsCore_ten :
    ∀ (f n : Nat) (l : List Char) {c : Char},
      c ∈ Nat.toDigitsCore 10 f n l → c ∈ l ∨ ∃ m, m < 10 ∧ c = Nat.digitChar m := by
  intro f
  induction f with
  | zero => intro n l c h; exact Or.inl h
  | succ f ih =>
    intro n l c h
    simp only [Nat.toDigitsCore] at h
    by_cases h0 : n / 10 = 0
    · rw [if_pos h0] at h
      rcases List.mem_cons.mp h with h1 | h1
      · exact Or.inr ⟨n % 10, Nat.mod_lt n (by norm_num), h1⟩
      · exact Or.inl h1
    · rw [if_neg h0] at h
      rcases ih (n / 10) ((n % 10).digitChar :: l) h with h1 | h1
      · rcases List.mem_cons.mp h1 with h2 | h2
        · exact Or.inr ⟨n % 10, Nat.mod_lt n (by omega), h2⟩
        · exact Or.inl h2
      · exact Or.inr h1

/-- Decimal representations never contain the key separator. -/
theorem sepFree_repr (n : Nat) : '|' ∉ (Nat.repr n).data := by
  intro hmem
  rcases mem_toDigitsCore_ten (n + 1) n [] hmem with h | ⟨m, hm, hc⟩
  · simp at h
  · have hd : ∀ m, m < 10 → Nat.digitChar m ≠ '|' := by decide
    exact hd m hm hc.symm

theorem toString_nat_eq_repr (n : Nat) : toString n = Nat.repr n := rfl

/-- The character content of a usage key. -/
theorem mkUsageKey_data (p m pr k : String) (ts : Nat) :
    (RecordTracker.mkUsageKey p m pr k ts).data
      = p.data ++ '|' :: (m.data ++ '|' :: (pr.data ++ '|'
          :: (k.data ++ '|' :: (Nat.repr ts).data))) := by
  have h1 : "|".data = ['|'] := rfl
  simp [RecordTracker.mkUsageKey, String.data_append, h1, toString_nat_eq_repr]

/-- The character content of a cost key. -/
theorem mkCostKey_data (p pr : String) (ts : Nat) :
    (RecordTracker.mkCostKey p pr ts).data
      = p.data ++ '|' :: ("cost".data ++ '|' :: (pr.data ++ '|'
          :: (Nat.repr ts).data)) := by
  have h1 : "|".data = ['|'] := rfl
  have h3 : "|cost|".data = '|' :: "cost".data ++ ['|'] := rfl
  simp [RecordTracker.mkCostKey, String.data_append, h1, h3, toString_nat_eq_repr]

/-- Usage keys are injective on tuples of separator-free field values. -/
theorem mkUsageKey_inj {p1 m1 pr1 k1 p2 m2 pr2 k2 : String} {ts1 ts2 : Nat}
    (hp1 : sepFree p1) (hm1 : sepFree m1) (hpr1 : sepFree pr1) (hk1 : sepFree k1)
    (hp2 : sepFree p2) (hm2 : sepFree m2) (hpr2 : sepFree pr2) (hk2 : sepFree k2)
    (h : RecordTracker.mkUsageKey p1 m1 pr1 k1 ts1
        = RecordTracker.mkUsageKey p2 m2 pr2 k2 ts2) :
    p1 = p2 ∧ m1 = m2 ∧ pr1 = pr2 ∧ k1 = k2 ∧ ts1 = ts2 := by
  have hd := congrArg String.data h
  rw [mkUsageKey_data, mkUsageKey_data] at hd
  obtain ⟨e1, hd⟩ := append_sep_cancel hp1 hp2 hd
  obtain ⟨e2, hd⟩ := append_sep_cancel hm1 hm2 hd
  obtain ⟨e3, hd⟩ := append_sep_cancel hpr1 hpr2 hd
  obtain ⟨e4, hd⟩ := append_sep_cancel hk1 hk2 hd
  exact ⟨String.ext e1, String.ext e2, String.ext e3, String.ext e4,
    nat_repr_injective (String.ext hd)⟩

/-- Cost keys are injective on tuples of separator-free field values. -/
theorem mkCostKey_inj {p1 pr1 p2 pr2 : String} {ts1 ts2 : Nat}
    (hp1 : sepFree p1) (hpr1 : sepFree pr1)
    (hp2 : sepFree p2) (hpr2 : sepFree pr2)
    (h : RecordTracker.mkCostKey p1 pr1 ts1 = RecordTracker.mkCostKey p2 pr2 ts2) :
    p1 = p2 ∧ pr1 = pr2 ∧ ts1 = ts2 := by
  have hd := congrArg String.data h
  rw [mkCostKey_data, mkCostKey_data] at hd
  have hcost : sepFree "cost" := by decide
  obtain ⟨e1, hd⟩ := append_sep_cancel hp1 hp2 hd
  obtain ⟨-, hd⟩ := append_sep_cancel hcost hcost hd
  obtain ⟨e3, hd⟩ := append_sep_cancel hpr1 hpr2 hd
  exact ⟨String.ext e1, String.ext e3, nat_repr_injective (String.ext hd)⟩

/-- With separator-free field values a usage key never equals a cost key:
the `"cost"` discriminator sits where the usage key has its model segment,
and the segment counts differ. -/
theorem mkUsageKey_ne_mkCostKey {p1 m1 pr1 k1 p2 pr2 : String} {ts1 ts2 : Nat}
    (hp1 : sepFree p1) (hm1 : sepFree m1) (hpr1 : sepFree pr1)
    (hp2 : sepFree p2) (hpr2 : sepFree pr2) :
    RecordTracker.mkUsageKey p1 m1 pr1 k1 ts1
      ≠ RecordTracker.mkCostKey p2 pr2 ts2 := by
  intro h
  have hd := congrArg String.data h
  rw [mkUsageKey_data, mkCostKey_data] at hd
  have hcost : sepFree "cost" := by decide
  obtain ⟨-, hd⟩ := append_sep_cancel hp1 hp2 hd
  obtain ⟨-, hd⟩ := append_sep_cancel hm1 hcost hd
  obtain ⟨-, hd⟩ := append_sep_cancel hpr1 hpr2 hd
  have hmem : '|' ∈ k1.data ++ '|' :: (Nat.repr ts1).data :=
    List.mem_append_right _ (List.mem_cons_self _ _)
  rw [hd] at hmem
  exact sepFree_repr ts2 hmem

/-- Changing only the provider changes the usage key. -/
theorem mkUsageKey_cancel_provider {p1 p2 m pr k : String} {ts : Nat}
    (h : RecordTracker.mkUsageKey p1 m pr k ts
        = RecordTracker.mkUsageKey p2 m pr k ts) : p1 = p2 := by
  have hd := congrArg String.data h
  rw [mkUsageKey_data, mkUsageKey_data] at hd
  exact String.ext (List.append_left_injective _ hd)

/-- Changing only the model changes the usage key. -/
theorem mkUsageKey_cancel_model {p m1 m2 pr k : String} {ts : Nat}
    (h : RecordTracker.mkUsageKey p m1 pr k ts
        = RecordTracker.mkUsageKey p m2 pr k ts) : m1 = m2 := by
  have hd := congrArg String.data h
  rw [mkUsageKey_data, mkUsageKey_data] at hd
  have hd2 := List.append_cancel_left hd
  have hd3 : m1.data ++ ('|' :: (pr.data ++ '|' :: (k.data ++ '|'
      :: (Nat.repr ts).data)))
      = m2.data ++ ('|' :: (pr.data ++ '|' :: (k.data ++ '|'
      :: (Nat.repr ts).data))) := by
    simpa using hd2
  exact String.ext (List.append_left_injective _ hd3)

/-- Changing only the project changes the usage key. -/
theorem mkUsageKey_cancel_project {p m pr1 pr2 k : String} {ts : Nat}
    (h : RecordTracker.mkUsageKey p m pr1 k ts
        = RecordTracker.mkUsageKey p m pr2 k ts) : pr1 = pr2 := by
  have hd := congrArg String.data h
  rw [mkUsageKey_data, mkUsageKey_data] at hd
  have hd2 := List.append_cancel_left hd
  simp only [List.cons.injEq, true_and] at hd2
  have hd3 := List.append_cancel_left hd2
  simp only [List.cons.injEq, true_and] at hd3
  have hd4 : pr1.data ++ ('|' :: (k.data ++ '|' :: (Nat.repr ts).data))
      = pr2.data ++ ('|' :: (k.data ++ '|' :: (Nat.repr ts).data)) := hd3
  exact String.ext (List.append_left_injective _ hd4)

/-- Changing only the api key id changes the usage key. -/
theorem mkUsageKey_cancel_api_key {p m pr k1 k2 : String} {ts : Nat}
    (h : RecordTracker.mkUsageKey p m pr k1 ts
        = RecordTracker.mkUsageKey p m pr k2 ts) : k1 = k2 := by
  have hd := congrArg String.data h
  rw [mkUsageKey_data, mkUsageKey_data] at hd
  have hd2 := List.append_cancel_left hd
  simp only [List.cons.injEq, true_and] at hd2
  have hd3 := List.append_cancel_left hd2
  simp only [List.cons.injEq, true_and] at hd3
  have hd4 := List.append_cancel_left hd3
  simp only [List.cons.injEq, true_and] at hd4
  exact String.ext (List.append_left_injective _ hd4)

/-- Changing only the window start changes the usage key. -/
theorem mkUsageKey_cancel_ts {p m pr k : String} {ts1 ts2 : Nat}
    (h : RecordTracker.mkUsageKey p m pr k ts1
        = RecordTracker.mkUsageKey p m pr k ts2) : ts1 = ts2 := by
  have hd := congrArg String.data h
  rw [mkUsageKey_data, mkUsageKey_data] at hd
  have hd2 := List.append_cancel_left hd
  simp only [List.cons.injEq, true_and] at hd2
  have hd3 := List.append_cancel_left hd2
  simp only [List.cons.injEq, true_and] at hd3
  have hd4 := List.append_cancel_left hd3
  simp only [List.cons.injEq, true_and] at hd4
  have hd5 := List.append_cancel_left hd4
  simp only [List.cons.injEq, true_and] at hd5
  exact nat_repr_injective (String.ext hd5)

/-! ### Tracker lemmas -/

theorem lookup_append_none {l1 l2 : List (String × TrackedValue)} {k : String}
    (h : l1.lookup k = none) : (l1 ++ l2).lookup k = l2.lookup k := by
  rw [List.lookup_append, h, Option.none_or]

theorem lookup_singleton_self (k : String) (v : TrackedValue) :
    List.lookup k [(k, v)] = some v := by
  simp [List.lookup]

theorem lookup_singleton_ne {k2 k : String} (v : TrackedValue) (h : k2 ≠ k) :
    List.lookup k2 [(k, v)] = none := by
  have hb : (k2 == k) = false := beq_eq_false_iff_ne.mpr h
  simp [List.lookup, hb]

/-- `is_new_usage` on an absent key: admit and insert. -/
theorem is_new_usage_absent (t : RecordTracker) (p m pr k : String) (ts : Nat)
    (h : t.seen.lookup (RecordTracker.mkUsageKey p m pr k ts) = none) :
    t.is_new_usage p m pr k ts
      = (true, ⟨t.seen ++ [(RecordTracker.mkUsageKey p m pr k ts, .usage ts)]⟩) := by
  simp [RecordTracker.is_new_usage, h]

/-- `is_new_usage` on a present key: reject and leave the state unchanged. -/
theorem is_new_usage_present (t : RecordTracker) (p m pr k : String) (ts : Nat)
    {v : TrackedValue}
    (h : t.seen.lookup (RecordTracker.mkUsageKey p m pr k ts) = some v) :
    t.is_new_usage p m pr k ts = (false, t) := by
  simp [RecordTracker.is_new_usage, h]

/-- `cost_delta` on an absent key: store the amount as baseline and return it. -/
theorem cost_delta_absent (t : RecordTracker) (p pr : String) (ts : Nat)
    (a : Amount)
    (h : t.seen.lookup (RecordTracker.mkCostKey p pr ts) = none) :
    t.cost_delta p pr ts a
      = (a, ⟨t.seen ++ [(RecordTracker.mkCostKey p pr ts, .cost ts a)]⟩) := by
  simp [RecordTracker.cost_delta, h]

/-- `cost_delta` on a present cost entry: return `max (a - v) 0`; rewrite the
stored entry to the new amount exactly when that delta is positive. -/
theorem cost_delta_present (t : RecordTracker) (p pr : String) (ts ts0 : Nat)
    (a v : Amount)
    (h : t.seen.lookup (RecordTracker.mkCostKey p pr ts) = some (.cost ts0 v)) :
    t.cost_delta p pr ts a
      = (max (a - v) 0,
          if 0 < max (a - v) 0 then
            (⟨t.seen.map fun kv =>
              if kv.1 = RecordTracker.mkCostKey p pr ts then
                (RecordTracker.mkCostKey p pr ts, .cost ts a)
              else kv⟩ : RecordTracker)
          else t) := by
  simp only [RecordTracker.cost_delta, h, TrackedValue.last]
  split <;> simp_all

/-- Claim C3: for every usage key, from a tracker where the key (and, for
the varied calls, the varied key) is absent: the first `is_new_usage` call
returns `true` and inserts the key mapped to its window start; a repeat
call with identical arguments returns `false` and leaves the state
unchanged; and a call with any one field changed returns `true`. -/
theorem claim_C3 (t : RecordTracker) (p m pr k : String) (ts : Nat)
    (habs : t.seen.lookup (RecordTracker.mkUsageKey p m pr k ts) = none) :
    (t.is_new_usage p m pr k ts).1 = true
    ∧ (t.is_new_usage p m pr k ts).2.seen
        = t.seen ++ [(RecordTracker.mkUsageKey p m pr k ts,
            TrackedValue.usage ts)]
    ∧ (t.is_new_usage p m pr k ts).2.is_new_usage p m pr k ts
        = (false, (t.is_new_usage p m pr k ts).2)
    ∧ (∀ p2, p2 ≠ p →
        t.seen.lookup (RecordTracker.mkUsageKey p2 m pr k ts) = none →
        ((t.is_new_usage p m pr k ts).2.is_new_usage p2 m pr k ts).1 = true)
    ∧ (∀ m2, m2 ≠ m →
        t.seen.lookup (RecordTracker.mkUsageKey p m2 pr k ts) = none →
        ((t.is_new_usage p m pr k ts).2.is_new_usage p m2 pr k ts).1 = true)
    ∧ (∀ pr2, pr2 ≠ pr →
        t.seen.lookup (RecordTracker.mkUsageKey p m pr2 k ts) = none →
        ((t.is_new_usage p m pr k ts).2.is_new_usage p m pr2 k ts).1 = true)
    ∧ (∀ k2, k2 ≠ k →
        t.seen.lookup (RecordTracker.mkUsageKey p m pr k2 ts) = none →
        ((t.is_new_usage p m pr k ts).2.is_new_usage p m pr k2 ts).1 = true)
    ∧ (∀ ts2, ts2 ≠ ts →
        t.seen.lookup (RecordTracker.mkUsageKey p m pr k ts2) = none →
        ((t.is_new_usage p m pr k ts).2.is_new_usage p m pr k ts2).1 = true) := by
  rw [is_new_usage_absent t p m pr k ts habs]
  have hself : (⟨t.seen ++ [(RecordTracker.mkUsageKey p m pr k ts,
      TrackedValue.usage ts)]⟩ : RecordTracker).seen.lookup
        (RecordTracker.mkUsageKey p m pr k ts)
      = some (TrackedValue.usage ts) := by
    rw [lookup_append_none habs, lookup_singleton_self]
  refine ⟨rfl, rfl, is_new_usage_present _ p m pr k ts hself, ?_, ?_, ?_, ?_, ?_⟩
  · intro p2 hne habs2
    have hkey : RecordTracker.mkUsageKey p2 m pr k ts
        ≠ RecordTracker.mkUsageKey p m pr k ts :=
      fun h => hne (mkUsageKey_cancel_provider h)
    have : (⟨t.seen ++ [(RecordTracker.mkUsageKey p m pr k ts,
        TrackedValue.usage ts)]⟩ : RecordTracker).seen.lookup
          (RecordTracker.mkUsageKey p2 m pr k ts) = none := by
      rw [lookup_append_none habs2, lookup_singleton_ne _ hkey]
    rw [is_new_usage_absent _ p2 m pr k ts this]
  · intro m2 hne habs2
    have hkey : RecordTracker.mkUsageKey p m2 pr k ts
        ≠ RecordTracker.mkUsageKey p m pr k ts :=
      fun h => hne (mkUsageKey_cancel_model h)
    have : (⟨t.seen ++ [(RecordTracker.mkUsageKey p m pr k ts,
        TrackedValue.usage ts)]⟩ : RecordTracker).seen.lookup
          (RecordTracker.mkUsageKey p m2 pr k ts) = none := by
      rw [lookup_append_none habs2, lookup_singleton_ne _ hkey]
    rw [is_new_usage_absent _ p m2 pr k ts this]
  · intro pr2 hne habs2
    have hkey : RecordTracker.mkUsageKey p m pr2 k ts
        ≠ RecordTracker.mkUsageKey p m pr k ts :=
      fun h => hne (mkUsageKey_cancel_project h)
    have : (⟨t.seen ++ [(RecordTracker.mkUsageKey p m pr k ts,
        TrackedValue.usage ts)]⟩ : RecordTracker).seen.lookup
          (RecordTracker.mkUsageKey p m pr2 k ts) = none := by
      rw [lookup_append_none habs2, lookup_singleton_ne _ hkey]
    rw [is_new_usage_absent _ p m pr2 k ts this]
  · intro k2 hne habs2
    have hkey : RecordTracker.mkUsageKey p m pr k2 ts
        ≠ RecordTracker.mkUsageKey p m pr k ts :=
      fun h => hne (mkUsageKey_cancel_api_key h)
    have : (⟨t.seen ++ [(RecordTracker.mkUsageKey p m pr k ts,
        TrackedValue.usage ts)]⟩ : RecordTracker).seen.lookup
          (RecordTracker.mkUsageKey p m pr k2 ts) = none := by
      rw [lookup_append_none habs2, lookup_singleton_ne _ hkey]
    rw [is_new_usage_absent _ p m pr k2 ts this]
  · intro ts2 hne habs2
    have hkey : RecordTracker.mkUsageKey p m pr k ts2
        ≠ RecordTracker.mkUsageKey p m pr k ts :=
      fun h => hne (mkUsageKey_cancel_ts h)
    have : (⟨t.seen ++ [(RecordTracker.mkUsageKey p m pr k ts,
        TrackedValue.usage ts)]⟩ : RecordTracker).seen.lookup
          (RecordTracker.mkUsageKey p m pr k ts2) = none := by
      rw [lookup_append_none habs2, lookup_singleton_ne _ hkey]
    rw [is_new_usage_absent _ p m pr k ts2 this]

/-- Witness for C3 at the test suite's concrete inputs. -/
theorem claim_C3_witness :
    (RecordTracker.init.is_new_usage "openai" "gpt-4o" "proj-1" "key-1" 1000).1
      = true
    ∧ (RecordTracker.init.is_new_usage "openai" "gpt-4o" "proj-1" "key-1"
        1000).2.is_new_usage "openai" "gpt-4o" "proj-1" "key-1" 1000
      = (false,
          (RecordTracker.init.is_new_usage "openai" "gpt-4o" "proj-1" "key-1"
            1000).2)
    ∧ ((RecordTracker.init.is_new_usage "openai" "gpt-4o" "proj-1" "key-1"
        1000).2.is_new_usage "gemini" "gpt-4o" "proj-1" "key-1" 1000).1
      = true
    ∧ ((RecordTracker.init.is_new_usage "openai" "gpt-4o" "proj-1" "key-1"
        1000).2.is_new_usage "openai" "gpt-4o" "proj-1" "key-1" 2000).1
      = true := by
  have h := claim_C3 RecordTracker.init "openai" "gpt-4o" "proj-1" "key-1" 1000
    (by decide)
  exact ⟨h.1, h.2.2.1, h.2.2.2.1 "gemini" (by decide) (by decide),
    h.2.2.2.2.2.2.2 2000 (by decide) (by decide)⟩

/-- Updating a present key in place rewrites exactly that binding. -/
theorem lookup_map_update {l : List (String × TrackedValue)} {key : String}
    {v newv : TrackedValue} (h : l.lookup key = some v) :
    (l.map fun kv => if kv.1 = key then (key, newv) else kv).lookup key
      = some newv := by
  induction l with
  | nil => simp at h
  | cons kv l ih =>
    obtain ⟨k0, v0⟩ := kv
    by_cases hk : k0 = key
    · subst hk
      rw [List.map_cons, if_pos (show (k0, v0).1 = k0 from rfl)]
      simp [List.lookup]
    · have hb : (key == k0) = false := beq_eq_false_iff_ne.mpr (Ne.symm hk)
      simp only [List.lookup, hb] at h
      rw [List.map_cons, if_neg (show ¬ (k0, v0).1 = key from hk)]
      simp only [List.lookup, hb]
      exact ih h

/-- Claim C1: `cost_delta` semantics. On an absent cost key the amount is
stored as baseline and returned; on a present key with last-applied value
`v` the result is `max (amount - v) 0`, the stored value becomes `amount`
exactly when that delta is positive and the state is untouched otherwise;
in particular two successive calls with amount 5 return 5 then 0, and a
call with amount 8 after the first returns 3. -/
theorem claim_C1 (t : RecordTracker) (p pr : String) (ts : Nat) :
    (∀ a : Amount,
      t.seen.lookup (RecordTracker.mkCostKey p pr ts) = none →
      t.cost_delta p pr ts a
        = (a, ⟨t.seen ++ [(RecordTracker.mkCostKey p pr ts,
            TrackedValue.cost ts a)]⟩))
    ∧ (∀ (a v : Amount) (ts0 : Nat),
      t.seen.lookup (RecordTracker.mkCostKey p pr ts)
          = some (TrackedValue.cost ts0 v) →
      (t.cost_delta p pr ts a).1 = max (a - v) 0
      ∧ (0 < a - v →
          (t.cost_delta p pr ts a).2.seen.lookup
              (RecordTracker.mkCostKey p pr ts)
            = some (TrackedValue.cost ts a))
      ∧ (a - v ≤ 0 → (t.cost_delta p pr ts a).2 = t))
    ∧ (t.seen.lookup (RecordTracker.mkCostKey p pr ts) = none →
      (t.cost_delta p pr ts 5).1 = 5
      ∧ ((t.cost_delta p pr ts 5).2.cost_delta p pr ts 5).1 = 0
      ∧ ((t.cost_delta p pr ts 5).2.cost_delta p pr ts 8).1 = 3) := by
  refine ⟨fun a h => cost_delta_absent t p pr ts a h, ?_, ?_⟩
  · intro a v ts0 h
    rw [cost_delta_present t p pr ts ts0 a v h]
    refine ⟨rfl, ?_, ?_⟩
    · intro hpos
      have hmax : 0 < max (a - v) 0 := lt_max_of_lt_left hpos
      simp only [if_pos hmax]
      exact lookup_map_update h
    · intro hnonpos
      have hmax : ¬ 0 < max (a - v) 0 := by
        simp only [lt_max_iff, lt_self_iff_false, or_false, not_lt]
        exact hnonpos
      rw [if_neg hmax]
  · intro h
    rw [cost_delta_absent t p pr ts 5 h]
    have h5 : (⟨t.seen ++ [(RecordTracker.mkCostKey p pr ts,
        TrackedValue.cost ts 5)]⟩ : RecordTracker).seen.lookup
          (RecordTracker.mkCostKey p pr ts)
        = some (TrackedValue.cost ts 5) := by
      rw [lookup_append_none h, lookup_singleton_self]
    rw [cost_delta_present _ p pr ts ts 5 5 h5,
      cost_delta_present _ p pr ts ts 8 5 h5]
    norm_num

/-- Witness for C1 at the test suite's concrete inputs. -/
theorem claim_C1_witness :
    (RecordTracker.init.cost_delta "openai" "proj-1" 1000 5).1 = 5
    ∧ ((RecordTracker.init.cost_delta "openai" "proj-1" 1000
        5).2.cost_delta "openai" "proj-1" 1000 5).1 = 0
    ∧ ((RecordTracker.init.cost_delta "openai" "proj-1" 1000
        5).2.cost_delta "openai" "proj-1" 1000 8).1 = 3 := by
  exact (claim_C1 RecordTracker.init "openai" "proj-1" 1000).2.2 (by decide)

/-- Splitting a list filter by a predicate preserves total length. -/
theorem filter_length_split (l : List (String × TrackedValue))
    (p : String × TrackedValue → Bool) :
    (l.filter p).length + (l.filter fun kv => !(p kv)).length = l.length := by
  induction l with
  | nil => rfl
  | cons kv l ih => by_cases h : p kv <;> simp [List.filter, h] <;> omega

/-- Claim C4: `evict_before` removes exactly the entries whose stored
window-start is strictly below the cutoff and returns their number;
entries at or above the cutoff survive; with the test scenario (entries at
1000 and 5000) evicting at 3000 removes one entry, forgets the 1000-start
key, keeps the 5000-start key, and a cutoff at or below all entries
removes nothing. -/
theorem claim_C4 (t : RecordTracker) (cutoff : Nat) :
    (∀ kv, kv ∈ (t.evict_before cutoff).2.seen
      ↔ kv ∈ t.seen ∧ cutoff ≤ kv.2.ts)
    ∧ (t.evict_before cutoff).1 + (t.evict_before cutoff).2.seen.length
        = t.seen.length
    ∧ ((∀ kv ∈ t.seen, cutoff ≤ kv.2.ts) → (t.evict_before cutoff).1 = 0)
    ∧ (((RecordTracker.init.is_new_usage "openai" "gpt-4o" "proj-1" "key-1"
          1000).2.is_new_usage "openai" "gpt-4o" "proj-1" "key-1"
          5000).2.evict_before 3000).1 = 1
    ∧ ((((RecordTracker.init.is_new_usage "openai" "gpt-4o" "proj-1" "key-1"
          1000).2.is_new_usage "openai" "gpt-4o" "proj-1" "key-1"
          5000).2.evict_before 3000).2.is_new_usage "openai" "gpt-4o"
          "proj-1" "key-1" 1000).1 = true
    ∧ ((((RecordTracker.init.is_new_usage "openai" "gpt-4o" "proj-1" "key-1"
          1000).2.is_new_usage "openai" "gpt-4o" "proj-1" "key-1"
          5000).2.evict_before 3000).2.is_new_usage "openai" "gpt-4o"
          "proj-1" "key-1" 5000).1 = false
    ∧ (((RecordTracker.init.is_new_usage "openai" "gpt-4o" "proj-1" "key-1"
          1000).2.is_new_usage "openai" "gpt-4o" "proj-1" "key-1"
          5000).2.evict_before 1000).1 = 0 := by
  refine ⟨?_, ?_, ?_, by decide, by decide, by decide, by decide⟩
  · intro kv
    simp [RecordTracker.evict_before, List.mem_filter, Nat.not_lt]
  · exact filter_length_split t.seen fun kv => decide (kv.2.ts < cutoff)
  · intro h
    have : t.seen.filter (fun kv => decide (kv.2.ts < cutoff)) = [] := by
      rw [List.filter_eq_nil_iff]
      intro kv hkv
      simpa [Nat.not_lt] using h kv hkv
    simp [RecordTracker.evict_before, this]

/-- Claim C5 is false as stated: with unrestricted string field values the
pipe-joined keys collide. A usage tuple whose model is the literal
`"cost"` collides with a cost tuple whose project contains the separator,
and two distinct usage tuples collide when fields contain the separator. -/
theorem claim_C5_counterexample :
    RecordTracker.mkUsageKey "p" "cost" "a" "b" 1000
      = RecordTracker.mkCostKey "p" "a|b" 1000
    ∧ RecordTracker.mkUsageKey "p" "m|x" "a" "b" 1
      = RecordTracker.mkUsageKey "p" "m" "x|a" "b" 1
    ∧ ("m|x", "a") ≠ ("m", "x|a") := by
  refine ⟨by decide, by decide, by decide⟩

/-- Claim C5 as amended: when every string field value is free of the
separator `|`, a usage key never equals a cost key, and the key
construction is injective on usage tuples and on cost tuples. -/
theorem claim_C5_amended (p1 m1 pr1 k1 p2 m2 pr2 k2 : String) (ts1 ts2 : Nat)
    (hp1 : sepFree p1) (hm1 : sepFree m1) (hpr1 : sepFree pr1)
    (hk1 : sepFree k1) (hp2 : sepFree p2) (hm2 : sepFree m2)
    (hpr2 : sepFree pr2) (hk2 : sepFree k2) :
    RecordTracker.mkUsageKey p1 m1 pr1 k1 ts1
      ≠ RecordTracker.mkCostKey p2 pr2 ts2
    ∧ (RecordTracker.mkUsageKey p1 m1 pr1 k1 ts1
        = RecordTracker.mkUsageKey p2 m2 pr2 k2 ts2 →
        (p1, m1, pr1, k1, ts1) = (p2, m2, pr2, k2, ts2))
    ∧ (RecordTracker.mkCostKey p1 pr1 ts1 = RecordTracker.mkCostKey p2 pr2 ts2 →
        (p1, pr1, ts1) = (p2, pr2, ts2)) := by
  refine ⟨mkUsageKey_ne_mkCostKey hp1 hm1 hpr1 hp2 hpr2, ?_, ?_⟩
  · intro h
    obtain ⟨e1, e2, e3, e4, e5⟩ :=
      mkUsageKey_inj hp1 hm1 hpr1 hk1 hp2 hm2 hpr2 hk2 h
    simp [e1, e2, e3, e4, e5]
  · intro h
    obtain ⟨e1, e2, e3⟩ := mkCostKey_inj hp1 hpr1 hp2 hpr2 h
    simp [e1, e2, e3]

/-- Witness for the amended C5 at concrete separator-free inputs. -/
theorem claim_C5_amended_witness :
    RecordTracker.mkUsageKey "openai" "gpt-4o" "proj-1" "key-1" 1000
      ≠ RecordTracker.mkCostKey "openai" "proj-1" 1000
    ∧ ("openai", "gpt-4o", "proj-1", "key-1", (1000 : Nat))
      = ("openai", "gpt-4o", "proj-1", "key-1", (1000 : Nat)) := by
  have h := claim_C5_amended "openai" "gpt-4o" "proj-1" "key-1"
    "openai" "gpt-4o" "proj-1" "key-1" 1000 1000
    (by decide) (by decide) (by decide) (by decide)
    (by decide) (by decide) (by decide) (by decide)
  exact ⟨h.1, h.2.1 rfl⟩

/-- Witness for C4 at a concrete tracker and cutoff. -/
theorem claim_C4_witness :
    ((RecordTracker.init.is_new_usage "openai" "gpt-4o" "proj-1" "key-1"
      5000).2.evict_before 1000).1 = 0 := by
  exact (claim_C4 (RecordTracker.init.is_new_usage "openai" "gpt-4o" "proj-1"
    "key-1" 5000).2 1000).2.2.1 (by decide)

/-! ### Collector lemmas -/

/-- Full case analysis of one `is_new_usage` call. -/
theorem is_new_usage_spec (t : RecordTracker) (p m pr k : String) (ts : Nat) :
    (t.seen.lookup (RecordTracker.mkUsageKey p m pr k ts) = none
      ∧ t.is_new_usage p m pr k ts
        = (true, ⟨t.seen ++ [(RecordTracker.mkUsageKey p m pr k ts,
            TrackedValue.usage ts)]⟩))
    ∨ (∃ v, t.seen.lookup (RecordTracker.mkUsageKey p m pr k ts) = some v
      ∧ t.is_new_usage p m pr k ts = (false, t)) := by
  rcases h : t.seen.lookup (RecordTracker.mkUsageKey p m pr k ts) with _ | v
  · exact Or.inl ⟨rfl, is_new_usage_absent t p m pr k ts h⟩
  · exact Or.inr ⟨v, rfl, is_new_usage_present t p m pr k ts h⟩

/-- `is_new_usage` never removes or rewrites an existing binding. -/
theorem is_new_usage_lookup_mono (t : RecordTracker) (p m pr k : String)
    (ts : Nat) {key : String} {v : TrackedValue}
    (h : t.seen.lookup key = some v) :
    (t.is_new_usage p m pr k ts).2.seen.lookup key = some v := by
  rcases is_new_usage_spec t p m pr k ts with ⟨-, heq⟩ | ⟨w, -, heq⟩
  · rw [heq, List.lookup_append, h]; rfl
  · rw [heq]; exact h

/-- A tracker binding survives the whole usage loop. -/
theorem processUsage_lookup_mono :
    ∀ (l : List UsageRecord) (t : RecordTracker) (now : Nat)
      (fails : UsageRecord → Bool) {key : String} {v : TrackedValue},
      t.seen.lookup key = some v →
      (processUsage t now fails l).1.seen.lookup key = some v := by
  intro l
  induction l with
  | nil => intro t now fails key v h; simpa [processUsage] using h
  | cons r rest ih =>
    intro t now fails key v h
    simp only [processUsage]
    by_cases hw : r.time_frame_end > now
    · rw [if_pos hw]; exact ih t now fails h
    · rw [if_neg hw]
      have hmono := is_new_usage_lookup_mono t r.provider r.model r.project
        r.api_key_id r.time_frame_start h
      by_cases hb : (t.is_new_usage r.provider r.model r.project r.api_key_id
          r.time_frame_start).1
      · rw [if_pos hb]
        by_cases hf : fails r
        · rw [if_pos hf]; exact hmono
        · rw [if_neg hf]; exact ih _ now fails hmono
      · rw [if_neg hb]; exact ih _ now fails hmono

/-- Every event of the usage loop is an `updateUsage` for a fetched record
whose window has elapsed. -/
theorem processUsage_events :
    ∀ (l : List UsageRecord) (t : RecordTracker) (now : Nat)
      (fails : UsageRecord → Bool) {e : SinkEvent},
      e ∈ (processUsage t now fails l).2.1 →
      ∃ r, r ∈ l ∧ e = SinkEvent.updateUsage r ∧ r.time_frame_end ≤ now := by
  intro l
  induction l with
  | nil => intro t now fails e h; simp [processUsage] at h
  | cons r rest ih =>
    intro t now fails e h
    simp only [processUsage] at h
    by_cases hw : r.time_frame_end > now
    · rw [if_pos hw] at h
      obtain ⟨r2, hr2, he, hle⟩ := ih t now fails h
      exact ⟨r2, List.mem_cons_of_mem r hr2, he, hle⟩
    · rw [if_neg hw] at h
      by_cases hb : (t.is_new_usage r.provider r.model r.project r.api_key_id
          r.time_frame_start).1
      · rw [if_pos hb] at h
        by_cases hf : fails r
        · rw [if_pos hf] at h; simp at h
        · rw [if_neg hf] at h
          rcases List.mem_cons.mp h with he | he
          · exact ⟨r, List.mem_cons_self r rest, he, Nat.le_of_not_lt hw⟩
          · obtain ⟨r2, hr2, heq, hle⟩ := ih _ now fails he
            exact ⟨r2, List.mem_cons_of_mem r hr2, heq, hle⟩
      · rw [if_neg hb] at h
        obtain ⟨r2, hr2, he, hle⟩ := ih _ now fails h
        exact ⟨r2, List.mem_cons_of_mem r hr2, he, hle⟩

/-- Every tracker entry after the usage loop was already present or is the
usage key of a fetched record whose window has elapsed. -/
theorem processUsage_seen_from :
    ∀ (l : List UsageRecord) (t : RecordTracker) (now : Nat)
      (fails : UsageRecord → Bool) {kv : String × TrackedValue},
      kv ∈ (processUsage t now fails l).1.seen →
      kv ∈ t.seen ∨ ∃ r, r ∈ l ∧ r.time_frame_end ≤ now
        ∧ kv = (RecordTracker.mkUsageKey r.provider r.model r.project
            r.api_key_id r.time_frame_start,
            TrackedValue.usage r.time_frame_start) := by
  intro l
  induction l with
  | nil => intro t now fails kv h; exact Or.inl (by simpa [processUsage] using h)
  | cons r rest ih =>
    intro t now fails kv h
    simp only [processUsage] at h
    have step : ∀ {t0 : RecordTracker},
        kv ∈ (processUsage (t0.is_new_usage r.provider r.model r.project
          r.api_key_id r.time_frame_start).2 now fails rest).1.seen →
        ¬ r.time_frame_end > now →
        kv ∈ t0.seen ∨ ∃ r2, r2 ∈ r :: rest ∧ r2.time_frame_end ≤ now
          ∧ kv = (RecordTracker.mkUsageKey r2.provider r2.model r2.project
              r2.api_key_id r2.time_frame_start,
              TrackedValue.usage r2.time_frame_start) := by
      intro t0 hmem hw
      rcases ih _ now fails hmem with hin | ⟨r2, hr2, hle, hkv⟩
      · rcases is_new_usage_spec t0 r.provider r.model r.project r.api_key_id
            r.time_frame_start with ⟨-, heq⟩ | ⟨w, -, heq⟩
        · rw [heq] at hin
          rcases List.mem_append.mp hin with hin1 | hin1
          · exact Or.inl hin1
          · refine Or.inr ⟨r, List.mem_cons_self r rest, Nat.le_of_not_lt hw, ?_⟩
            simpa using hin1
        · rw [heq] at hin; exact Or.inl hin
      · exact Or.inr ⟨r2, List.mem_cons_of_mem r hr2, hle, hkv⟩
    by_cases hw : r.time_frame_end > now
    · rw [if_pos hw] at h
      rcases ih t now fails h with hin | ⟨r2, hr2, hle, hkv⟩
      · exact Or.inl hin
      · exact Or.inr ⟨r2, List.mem_cons_of_mem r hr2, hle, hkv⟩
    · rw [if_neg hw] at h
      by_cases hb : (t.is_new_usage r.provider r.model r.project r.api_key_id
          r.time_frame_start).1
      · rw [if_pos hb] at h
        by_cases hf : fails r
        · rw [if_pos hf] at h
          rcases is_new_usage_spec t r.provider r.model r.project r.api_key_id
              r.time_frame_start with ⟨-, heq⟩ | ⟨w, -, heq⟩
          · rw [heq] at h
            rcases List.mem_append.mp h with hin1 | hin1
            · exact Or.inl hin1
            · refine Or.inr ⟨r, List.mem_cons_self r rest,
                Nat.le_of_not_lt hw, ?_⟩
              simpa using hin1
          · rw [heq] at h; exact Or.inl h
        · rw [if_neg hf] at h
          exact step h hw
      · rw [if_neg hb] at h
        exact step h hw

/-- After the usage loop, any record for which an `updateUsage` event was
emitted is marked in the tracker. -/
theorem processUsage_event_key :
    ∀ (l : List UsageRecord) (t : RecordTracker) (now : Nat)
      (fails : UsageRecord → Bool) {r : UsageRecord},
      SinkEvent.updateUsage r ∈ (processUsage t now fails l).2.1 →
      ∃ v, (processUsage t now fails l).1.seen.lookup
        (RecordTracker.mkUsageKey r.provider r.model r.project r.api_key_id
          r.time_frame_start) = some v := by
  intro l
  induction l with
  | nil => intro t now fails r h; simp [processUsage] at h
  | cons r0 rest ih =>
    intro t now fails r h
    simp only [processUsage] at h ⊢
    by_cases hw : r0.time_frame_end > now
    · rw [if_pos hw] at h ⊢; exact ih t now fails h
    · rw [if_neg hw] at h ⊢
      by_cases hb : (t.is_new_usage r0.provider r0.model r0.project
          r0.api_key_id r0.time_frame_start).1
      · rw [if_pos hb] at h ⊢
        by_cases hf : fails r0
        · rw [if_pos hf] at h; simp at h
        · rw [if_neg hf] at h ⊢
          rcases List.mem_cons.mp h with he | he
          · have hr : r = r0 := by
              cases he; rfl
            subst hr
            rcases is_new_usage_spec t r.provider r.model r.project
                r.api_key_id r.time_frame_start with ⟨hnone, heq⟩ | ⟨w, -, heq⟩
            · have hpresent : (t.is_new_usage r.provider r.model r.project
                  r.api_key_id r.time_frame_start).2.seen.lookup
                    (RecordTracker.mkUsageKey r.provider r.model r.project
                      r.api_key_id r.time_frame_start)
                  = some (TrackedValue.usage r.time_frame_start) := by
                rw [heq]
                exact (lookup_append_none hnone).trans
                  (lookup_singleton_self _ _)
              exact ⟨TrackedValue.usage r.time_frame_start,
                processUsage_lookup_mono rest _ now fails hpresent⟩
            · rw [heq] at hb; simp at hb
          · exact ih _ now fails he
      · rw [if_neg hb] at h ⊢
        exact ih _ now fails h

/-- The usage loop over a concatenation: if the first part raises, the
second part is never reached; otherwise the second part continues from the
first part's tracker and the events concatenate. -/
theorem processUsage_append :
    ∀ (l1 l2 : List UsageRecord) (t : RecordTracker) (now : Nat)
      (fails : UsageRecord → Bool),
      processUsage t now fails (l1 ++ l2)
        = if (processUsage t now fails l1).2.2 then processUsage t now fails l1
          else ((processUsage (processUsage t now fails l1).1 now fails l2).1,
            (processUsage t now fails l1).2.1
              ++ (processUsage (processUsage t now fails l1).1 now
                    fails l2).2.1,
            (processUsage (processUsage t now fails l1).1 now fails l2).2.2) := by
  intro l1
  induction l1 with
  | nil =>
    intro l2 t now fails
    simp [processUsage]
  | cons r rest ih =>
    intro l2 t now fails
    simp only [List.cons_append, processUsage, List.append_eq]
    by_cases hw : r.time_frame_end > now
    · rw [if_pos hw, if_pos hw, ih]
    · rw [if_neg hw, if_neg hw]
      by_cases hb : (t.is_new_usage r.provider r.model r.project r.api_key_id
          r.time_frame_start).1
      · rw [if_pos hb, if_pos hb]
        by_cases hf : fails r
        · rw [if_pos hf, if_pos hf]
          simp
        · rw [if_neg hf, if_neg hf, ih]
          by_cases hr : (processUsage (t.is_new_usage r.provider r.model
              r.project r.api_key_id r.time_frame_start).2 now fails
              rest).2.2
          · rw [if_pos hr]
            simp only [hr, if_true]
          · rw [if_neg hr]
            simp only [hr, Bool.false_eq_true, if_false, List.cons_append]
      · rw [if_neg hb, if_neg hb, ih]

/-- Every event of the cost loop is an `updateCost` with a strictly
positive delta for a fetched record whose window has elapsed. -/
theorem processCosts_events :
    ∀ (l : List CostRecord) (t : RecordTracker) (now : Nat) {e : SinkEvent},
      e ∈ (processCosts t now l).2 →
      ∃ r d, r ∈ l ∧ e = SinkEvent.updateCost r d ∧ r.time_frame_end ≤ now
        ∧ 0 < d := by
  intro l
  induction l with
  | nil => intro t now e h; simp [processCosts] at h
  | cons r rest ih =>
    intro t now e h
    simp only [processCosts] at h
    by_cases hw : r.time_frame_end > now
    · rw [if_pos hw] at h
      obtain ⟨r2, d, hr2, he, hle, hd⟩ := ih t now h
      exact ⟨r2, d, List.mem_cons_of_mem r hr2, he, hle, hd⟩
    · rw [if_neg hw] at h
      by_cases hd0 : (t.cost_delta r.provider r.project r.time_frame_start
          r.amount_usd).1 > 0
      · rw [if_pos hd0] at h
        rcases List.mem_cons.mp h with he | he
        · exact ⟨r, _, List.mem_cons_self r rest, he, Nat.le_of_not_lt hw, hd0⟩
        · obtain ⟨r2, d, hr2, heq, hle, hd⟩ := ih _ now he
          exact ⟨r2, d, List.mem_cons_of_mem r hr2, heq, hle, hd⟩
      · rw [if_neg hd0] at h
        obtain ⟨r2, d, hr2, heq, hle, hd⟩ := ih _ now h
        exact ⟨r2, d, List.mem_cons_of_mem r hr2, heq, hle, hd⟩

/-- Every tracker entry after the cost loop was already present or is the
cost key of a fetched record whose window has elapsed. -/
theorem processCosts_seen_from :
    ∀ (l : List CostRecord) (t : RecordTracker) (now : Nat)
      {kv : String × TrackedValue},
      kv ∈ (processCosts t now l).1.seen →
      kv ∈ t.seen ∨ ∃ r, r ∈ l ∧ r.time_frame_end ≤ now
        ∧ kv.1 = RecordTracker.mkCostKey r.provider r.project
            r.time_frame_start := by
  intro l
  induction l with
  | nil => intro t now kv h; exact Or.inl (by simpa [processCosts] using h)
  | cons r rest ih =>
    intro t now kv h
    simp only [processCosts] at h
    by_cases hw : r.time_frame_end > now
    · rw [if_pos hw] at h
      rcases ih t now h with hin | ⟨r2, hr2, hle, hkv⟩
      · exact Or.inl hin
      · exact Or.inr ⟨r2, List.mem_cons_of_mem r hr2, hle, hkv⟩
    · rw [if_neg hw] at h
      have hstep : kv ∈ (t.cost_delta r.provider r.project r.time_frame_start
          r.amount_usd).2.seen →
          kv ∈ t.seen ∨ kv.1 = RecordTracker.mkCostKey r.provider r.project
            r.time_frame_start := by
        intro hm
        rcases hlook : t.seen.lookup (RecordTracker.mkCostKey r.provider
            r.project r.time_frame_start) with _ | v
        · rw [cost_delta_absent t _ _ _ _ hlook] at hm
          rcases List.mem_append.mp hm with h1 | h1
          · exact Or.inl h1
          · right
            have : kv = (RecordTracker.mkCostKey r.provider r.project
                r.time_frame_start, TrackedValue.cost r.time_frame_start
                r.amount_usd) := by simpa using h1
            rw [this]
        · simp only [RecordTracker.cost_delta, hlook] at hm
          by_cases hpos : 0 < max (r.amount_usd - v.last) 0
          · rw [if_pos hpos] at hm
            simp only [List.mem_map] at hm
            obtain ⟨kv0, hkv0, heq⟩ := hm
            by_cases hk : kv0.1 = RecordTracker.mkCostKey r.provider
                r.project r.time_frame_start
            · rw [if_pos hk] at heq
              right
              rw [← heq]
            · rw [if_neg hk] at heq
              exact Or.inl (heq ▸ hkv0)
          · rw [if_neg hpos] at hm
            exact Or.inl hm
      have hsplit : (processCosts (t.cost_delta r.provider r.project
          r.time_frame_start r.amount_usd).2 now rest).1.seen
          = (if (t.cost_delta r.provider r.project r.time_frame_start
              r.amount_usd).1 > 0 then
              ((processCosts (t.cost_delta r.provider r.project
                r.time_frame_start r.amount_usd).2 now rest).1,
               SinkEvent.updateCost r (t.cost_delta r.provider r.project
                r.time_frame_start r.amount_usd).1
                :: (processCosts (t.cost_delta r.provider r.project
                  r.time_frame_start r.amount_usd).2 now rest).2)
            else
              ((processCosts (t.cost_delta r.provider r.project
                r.time_frame_start r.amount_usd).2 now rest).1,
               (processCosts (t.cost_delta r.provider r.project
                r.time_frame_start r.amount_usd).2 now rest).2)).1.seen := by
        by_cases hd0 : (t.cost_delta r.provider r.project r.time_frame_start
            r.amount_usd).1 > 0
        · rw [if_pos hd0]
        · rw [if_neg hd0]
      rw [← hsplit] at h
      rcases ih _ now h with hin | ⟨r2, hr2, hle, hkv⟩
      · rcases hstep hin with h1 | h1
        · exact Or.inl h1
        · exact Or.inr ⟨r, List.mem_cons_self r rest, Nat.le_of_not_lt hw, h1⟩
      · exact Or.inr ⟨r2, List.mem_cons_of_mem r hr2, hle, hkv⟩

/-- Decomposition of `collectProvider` when both fetches succeed. -/
theorem collectProvider_ok (p : ProviderModel) (s e : Int) (now : Nat)
    (t : RecordTracker) (fails : UsageRecord → Bool)
    {us : List UsageRecord} {cs : List CostRecord}
    (hu : p.fetch_usage s e = .ok us) (hc : p.fetch_costs s e = .ok cs) :
    collectProvider p s e now t fails
      = ((processCosts (processUsage t now fails us).1 now cs).1,
        (processUsage t now fails us).2.1
          ++ (if (processUsage t now fails us).2.2 then
                [SinkEvent.scrapeError p.name "usage"] else [])
          ++ (processCosts (processUsage t now fails us).1 now cs).2
          ++ [SinkEvent.observeDuration p.name]
          ++ (if (processUsage t now fails us).2.2 then []
              else [SinkEvent.lastScrapeSuccess p.name])) := by
  simp only [collectProvider, hu, hc]
  by_cases hU : (processUsage t now fails us).2.2 <;> simp [hU]

/-- Claim C6: in a cycle where both fetches succeed, no record whose
`time_frame_end` exceeds the captured `now` is ever forwarded to the sink,
regardless of tracker state, and the tracker only ever acquires keys of
records whose windows have elapsed. -/
theorem claim_C6 (p : ProviderModel) (s e : Int) (now : Nat)
    (t : RecordTracker) (fails : UsageRecord → Bool)
    (us : List UsageRecord) (cs : List CostRecord)
    (hu : p.fetch_usage s e = .ok us) (hc : p.fetch_costs s e = .ok cs) :
    (∀ r, SinkEvent.updateUsage r ∈ (collectProvider p s e now t fails).2 →
      r.time_frame_end ≤ now)
    ∧ (∀ r d, SinkEvent.updateCost r d ∈ (collectProvider p s e now t fails).2 →
      r.time_frame_end ≤ now)
    ∧ (∀ kv, kv ∈ (collectProvider p s e now t fails).1.seen →
      kv ∈ t.seen
      ∨ (∃ r, r ∈ us ∧ r.time_frame_end ≤ now
          ∧ kv.1 = RecordTracker.mkUsageKey r.provider r.model r.project
              r.api_key_id r.time_frame_start)
      ∨ (∃ r, r ∈ cs ∧ r.time_frame_end ≤ now
          ∧ kv.1 = RecordTracker.mkCostKey r.provider r.project
              r.time_frame_start)) := by
  rw [collectProvider_ok p s e now t fails hu hc]
  refine ⟨?_, ?_, ?_⟩
  · intro r hr
    simp only [List.mem_append] at hr
    rcases hr with (((h1 | h1) | h1) | h1) | h1
    · obtain ⟨r2, -, he, hle⟩ := processUsage_events us t now fails h1
      cases he; exact hle
    · rcases hif : (processUsage t now fails us).2.2 with _ | _ <;>
        rw [hif] at h1 <;> simp at h1
    · obtain ⟨r2, d, -, he, -, -⟩ := processCosts_events cs _ now h1
      simp at he
    · simp at h1
    · rcases hif : (processUsage t now fails us).2.2 with _ | _ <;>
        rw [hif] at h1 <;> simp at h1
  · intro r d hr
    simp only [List.mem_append] at hr
    rcases hr with (((h1 | h1) | h1) | h1) | h1
    · obtain ⟨r2, -, he, -⟩ := processUsage_events us t now fails h1
      simp at he
    · rcases hif : (processUsage t now fails us).2.2 with _ | _ <;>
        rw [hif] at h1 <;> simp at h1
    · obtain ⟨r2, d2, -, he, hle, -⟩ := processCosts_events cs _ now h1
      cases he; exact hle
    · simp at h1
    · rcases hif : (processUsage t now fails us).2.2 with _ | _ <;>
        rw [hif] at h1 <;> simp at h1
  · intro kv hkv
    rcases processCosts_seen_from cs _ now hkv with h1 | ⟨r, hr, hle, hk⟩
    · rcases processUsage_seen_from us t now fails h1 with h2 | ⟨r, hr, hle, hk⟩
      · exact Or.inl h2
      · exact Or.inr (Or.inl ⟨r, hr, hle, by rw [hk]⟩)
    · exact Or.inr (Or.inr ⟨r, hr, hle, hk⟩)

/-- Witness for C6: a concrete forwarded record indeed has an elapsed
window. -/
theorem claim_C6_witness :
    (⟨"openai", "gpt-4o", "proj-1", "key-1", 10, 5, 1, 0, 50⟩
      : UsageRecord).time_frame_end ≤ 100 := by
  exact (claim_C6 oneRecordProvider 0 60 100 RecordTracker.init
    (fun _ => false)
    [⟨"openai", "gpt-4o", "proj-1", "key-1", 10, 5, 1, 0, 50⟩] [] rfl rfl).1
    ⟨"openai", "gpt-4o", "proj-1", "key-1", 10, 5, 1, 0, 50⟩ (by decide)

/-- Claim C7: a provider whose fetches raise is isolated. If both fetches
raise, the per-provider collection returns normally with exactly one
usage-stage and one cost-stage error event, a duration observation, no
last-scrape-success event, and an untouched tracker. A usage fetch failure
does not prevent the cost stage from running, and a cost fetch failure
does not disturb the usage stage. -/
theorem claim_C7 :
    (∀ (p : ProviderModel) (s e : Int) (now : Nat) (t : RecordTracker)
      (fails : UsageRecord → Bool),
      p.fetch_usage s e = .error () → p.fetch_costs s e = .error () →
      collectProvider p s e now t fails
        = (t, [SinkEvent.scrapeError p.name "usage",
            SinkEvent.scrapeError p.name "cost",
            SinkEvent.observeDuration p.name]))
    ∧ (∀ (p : ProviderModel) (s e : Int) (now : Nat) (t : RecordTracker)
      (fails : UsageRecord → Bool) (cs : List CostRecord),
      p.fetch_usage s e = .error () → p.fetch_costs s e = .ok cs →
      collectProvider p s e now t fails
        = ((processCosts t now cs).1,
          SinkEvent.scrapeError p.name "usage" :: (processCosts t now cs).2
            ++ [SinkEvent.observeDuration p.name]))
    ∧ (∀ (p : ProviderModel) (s e : Int) (now : Nat) (t : RecordTracker)
      (fails : UsageRecord → Bool) (us : List UsageRecord),
      p.fetch_usage s e = .ok us → p.fetch_costs s e = .error () →
      (processUsage t now fails us).2.2 = false →
      collectProvider p s e now t fails
        = ((processUsage t now fails us).1,
          (processUsage t now fails us).2.1
            ++ SinkEvent.scrapeError p.name "cost"
              :: [SinkEvent.observeDuration p.name])) := by
  refine ⟨?_, ?_, ?_⟩
  · intro p s e now t fails hu hc
    simp [collectProvider, hu, hc]
  · intro p s e now t fails cs hu hc
    simp [collectProvider, hu, hc]
  · intro p s e now t fails us hu hc hraised
    simp [collectProvider, hu, hc, hraised]

/-- Witness for C7 at a concrete failing provider. -/
theorem claim_C7_witness :
    collectProvider failingProvider 0 60 100 RecordTracker.init (fun _ => false)
      = (RecordTracker.init,
        [SinkEvent.scrapeError "failing" "usage",
          SinkEvent.scrapeError "failing" "cost",
          SinkEvent.observeDuration "failing"]) := by
  exact claim_C7.1 failingProvider 0 60 100 RecordTracker.init (fun _ => false)
    rfl rfl

/-- Claim C2: the sink's cost counter is bumped by exactly the tracker's
delta, never by the record's raw cumulative amount, and `update_cost` is
only called when that delta is strictly positive. -/
theorem claim_C2 :
    (∀ (p : ProviderModel) (s e : Int) (now : Nat) (t : RecordTracker)
      (fails : UsageRecord → Bool) (us : List UsageRecord)
      (cs : List CostRecord),
      p.fetch_usage s e = .ok us → p.fetch_costs s e = .ok cs →
      ∀ r d, SinkEvent.updateCost r d ∈ (collectProvider p s e now t fails).2 →
        0 < d)
    ∧ (∀ (t : RecordTracker) (now : Nat) (r : CostRecord),
      r.time_frame_end ≤ now →
      (processCosts t now [r]).1
          = (t.cost_delta r.provider r.project r.time_frame_start
              r.amount_usd).2
      ∧ (0 < (t.cost_delta r.provider r.project r.time_frame_start
            r.amount_usd).1 →
          (processCosts t now [r]).2
            = [SinkEvent.updateCost r (t.cost_delta r.provider r.project
                r.time_frame_start r.amount_usd).1])
      ∧ ((t.cost_delta r.provider r.project r.time_frame_start
            r.amount_usd).1 ≤ 0 →
          (processCosts t now [r]).2 = []))
    ∧ (∀ (c : CostCounters) (r : CostRecord) (d : Amount),
      MetricsUpdater.update_cost c r d (r.provider, r.project)
          = c (r.provider, r.project) + d
      ∧ applyCostEvents c [SinkEvent.updateCost r d] (r.provider, r.project)
          = c (r.provider, r.project) + d) := by
  refine ⟨?_, ?_, ?_⟩
  · intro p s e now t fails us cs hu hc r d hmem
    rw [collectProvider_ok p s e now t fails hu hc] at hmem
    simp only [List.mem_append] at hmem
    rcases hmem with (((h1 | h1) | h1) | h1) | h1
    · obtain ⟨r2, -, he, -⟩ := processUsage_events us t now fails h1
      simp at he
    · rcases hif : (processUsage t now fails us).2.2 with _ | _ <;>
        rw [hif] at h1 <;> simp at h1
    · obtain ⟨r2, d2, -, he, -, hd⟩ := processCosts_events cs _ now h1
      cases he; exact hd
    · simp at h1
    · rcases hif : (processUsage t now fails us).2.2 with _ | _ <;>
        rw [hif] at h1 <;> simp at h1
  · intro t now r hw
    have hnw : ¬ r.time_frame_end > now := by omega
    refine ⟨?_, ?_, ?_⟩
    · simp only [processCosts, if_neg hnw]
      by_cases hd : (t.cost_delta r.provider r.project r.time_frame_start
          r.amount_usd).1 > 0
      · rw [if_pos hd]
      · rw [if_neg hd]
    · intro hd
      simp only [processCosts, if_neg hnw, if_pos hd]
    · intro hd
      have hnd : ¬ (t.cost_delta r.provider r.project r.time_frame_start
          r.amount_usd).1 > 0 := not_lt.mpr hd
      simp only [processCosts, if_neg hnw, if_neg hnd]
  · intro c r d
    constructor
    · simp [MetricsUpdater.update_cost]
    · simp [applyCostEvents, MetricsUpdater.update_cost]

/-- Witness for C2: a concrete single-record cost stage forwards exactly
the tracker's delta, and the sink adds exactly that delta. -/
theorem claim_C2_witness :
    (processCosts RecordTracker.init 100
        [⟨"openai", "proj", 3, 0, 50⟩]).2
      = [SinkEvent.updateCost ⟨"openai", "proj", 3, 0, 50⟩
          (RecordTracker.init.cost_delta "openai" "proj" 0 3).1]
    ∧ applyCostEvents (fun _ => 0)
        [SinkEvent.updateCost ⟨"openai", "proj", 3, 0, 50⟩ 3]
        ("openai", "proj")
      = (fun _ : String × String => (0 : Amount)) ("openai", "proj") + 3 := by
  refine ⟨(claim_C2.2.1 RecordTracker.init 100
    ⟨"openai", "proj", 3, 0, 50⟩ (by decide)).2.1 (by decide), ?_⟩
  exact (claim_C2.2.2 (fun _ => 0) ⟨"openai", "proj", 3, 0, 50⟩ 3).2

/-- Claim C10: tracker admission is not atomic with sink application. If
the usage sink raises on an admitted record, the record stays marked in
the tracker, its counts are never applied, the remaining records of the
batch are skipped, a later re-observation is rejected, and the failure
surfaces as a usage-stage error. -/
theorem claim_C10 (p : ProviderModel) (s e : Int) (now : Nat)
    (t : RecordTracker) (fails : UsageRecord → Bool)
    (l1 l2 : List UsageRecord) (r : UsageRecord)
    (hu : p.fetch_usage s e = .ok (l1 ++ r :: l2))
    (hpre : (processUsage t now fails l1).2.2 = false)
    (hw : r.time_frame_end ≤ now)
    (habs : (processUsage t now fails l1).1.seen.lookup
      (RecordTracker.mkUsageKey r.provider r.model r.project r.api_key_id
        r.time_frame_start) = none)
    (hf : fails r = true) :
    (processUsage t now fails (l1 ++ r :: l2)).2.2 = true
    ∧ (processUsage t now fails (l1 ++ r :: l2)).1.seen.lookup
        (RecordTracker.mkUsageKey r.provider r.model r.project r.api_key_id
          r.time_frame_start) = some (TrackedValue.usage r.time_frame_start)
    ∧ (processUsage t now fails (l1 ++ r :: l2)).2.1
        = (processUsage t now fails l1).2.1
    ∧ SinkEvent.updateUsage r ∉ (processUsage t now fails (l1 ++ r :: l2)).2.1
    ∧ ((processUsage t now fails (l1 ++ r :: l2)).1.is_new_usage r.provider
        r.model r.project r.api_key_id r.time_frame_start).1 = false
    ∧ SinkEvent.scrapeError p.name "usage"
        ∈ (collectProvider p s e now t fails).2 := by
  have hnw : ¬ r.time_frame_end > now := by omega
  have hstep : processUsage (processUsage t now fails l1).1 now fails (r :: l2)
      = (⟨(processUsage t now fails l1).1.seen
          ++ [(RecordTracker.mkUsageKey r.provider r.model r.project
              r.api_key_id r.time_frame_start,
              TrackedValue.usage r.time_frame_start)]⟩, [], true) := by
    simp only [processUsage, if_neg hnw]
    rw [is_new_usage_absent _ r.provider r.model r.project r.api_key_id
      r.time_frame_start habs]
    simp [hf]
  have hfull : processUsage t now fails (l1 ++ r :: l2)
      = (⟨(processUsage t now fails l1).1.seen
          ++ [(RecordTracker.mkUsageKey r.provider r.model r.project
              r.api_key_id r.time_frame_start,
              TrackedValue.usage r.time_frame_start)]⟩,
        (processUsage t now fails l1).2.1, true) := by
    rw [processUsage_append l1 (r :: l2) t now fails, hpre]
    simp [hstep]
  have hlook : (⟨(processUsage t now fails l1).1.seen
      ++ [(RecordTracker.mkUsageKey r.provider r.model r.project
          r.api_key_id r.time_frame_start,
          TrackedValue.usage r.time_frame_start)]⟩ : RecordTracker).seen.lookup
        (RecordTracker.mkUsageKey r.provider r.model r.project r.api_key_id
          r.time_frame_start)
      = some (TrackedValue.usage r.time_frame_start) := by
    rw [lookup_append_none habs, lookup_singleton_self]
  refine ⟨by rw [hfull], by rw [hfull]; exact hlook, by rw [hfull], ?_, ?_, ?_⟩
  · intro hmem
    rw [hfull] at hmem
    obtain ⟨v, hv⟩ := processUsage_event_key l1 t now fails hmem
    rw [habs] at hv
    exact Option.noConfusion hv
  · rw [hfull]
    exact congrArg Prod.fst (is_new_usage_present _ r.provider r.model
      r.project r.api_key_id r.time_frame_start hlook)
  · have hraised : (processUsage t now fails (l1 ++ r :: l2)).2.2 = true := by
      rw [hfull]
    rcases hfc : p.fetch_costs s e with u | cs
    · cases u
      simp [collectProvider, hu, hfc, hraised]
    · simp [collectProvider, hu, hfc, hraised]

/-- Witness for C10 at a concrete provider and record. -/
theorem claim_C10_witness :
    (processUsage RecordTracker.init 100 (fun _ => true)
        ([] ++ ⟨"openai", "gpt-4o", "proj-1", "key-1", 10, 5, 1, 0, 50⟩
          :: [])).2.2 = true
    ∧ SinkEvent.scrapeError "mock" "usage"
        ∈ (collectProvider oneRecordProvider 0 60 100 RecordTracker.init
            (fun _ => true)).2 := by
  have h := claim_C10 oneRecordProvider 0 60 100 RecordTracker.init
    (fun _ => true) [] []
    ⟨"openai", "gpt-4o", "proj-1", "key-1", 10, 5, 1, 0, 50⟩
    rfl rfl (by decide) (by decide) rfl
  exact ⟨h.1, h.2.2.2.2.2⟩

/-- Claim C8 is false as stated: `Collector.close` has no exception
handling, so when the first provider's close raises, the exception escapes
and the second provider is never closed. -/
theorem claim_C8_counterexample :
    collectorClose [badCloseProvider, goodCloseProvider] = (["bad"], true)
    ∧ "good" ∉ (collectorClose [badCloseProvider, goodCloseProvider]).1
    ∧ (collectorClose [badCloseProvider, goodCloseProvider]).2 = true := by
  refine ⟨rfl, by decide, rfl⟩

/-- Claim C8 as amended: during shutdown the Collector calls `close` once
on every configured provider, in order, as long as no close raises; a
provider whose close raises propagates the exception and the remaining
providers are never closed. -/
theorem claim_C8_amended :
    (∀ ps : List ProviderModel, (∀ p ∈ ps, p.close = .ok ()) →
      collectorClose ps = (ps.map ProviderModel.name, false))
    ∧ (∀ (ps qs : List ProviderModel) (pbad : ProviderModel),
      (∀ p ∈ ps, p.close = .ok ()) → pbad.close = .error () →
      collectorClose (ps ++ pbad :: qs)
        = (ps.map ProviderModel.name ++ [pbad.name], true)) := by
  constructor
  · intro ps h
    induction ps with
    | nil => rfl
    | cons p ps ih =>
      have hp := h p (List.mem_cons_self p ps)
      have hrest := ih fun q hq => h q (List.mem_cons_of_mem p hq)
      simp [collectorClose, hp, hrest]
  · intro ps qs pbad h hbad
    induction ps with
    | nil => simp [collectorClose, hbad]
    | cons p ps ih =>
      have hp := h p (List.mem_cons_self p ps)
      have hrest := ih fun q hq => h q (List.mem_cons_of_mem p hq)
      simp [collectorClose, hp, hrest]

/-- Witness for the amended C8 at concrete providers. -/
theorem claim_C8_amended_witness :
    collectorClose [goodCloseProvider, goodCloseProvider]
      = (["good", "good"], false)
    ∧ collectorClose [goodCloseProvider, badCloseProvider, goodCloseProvider]
      = (["good", "bad"], true) := by
  constructor
  · refine claim_C8_amended.1 [goodCloseProvider, goodCloseProvider] ?_
    intro p hp
    rcases List.mem_cons.mp hp with rfl | hp2
    · rfl
    · rcases List.mem_cons.mp hp2 with rfl | hp3
      · rfl
      · cases hp3
  · refine claim_C8_amended.2 [goodCloseProvider] [goodCloseProvider]
      badCloseProvider ?_ rfl
    intro p hp
    rcases List.mem_cons.mp hp with rfl | hp2
    · rfl
    · cases hp2

/-- Claim C9: every cycle's fetch window is `[last_scrape, last_scrape +
interval)`, `last_scrape` advances to the cycle's end, the first window
starts at `now - interval`, consecutive windows are adjacent, and the
half-open windows of distinct cycles are pairwise disjoint. -/
theorem claim_C9 :
    (∀ now interval : Int,
      windowOfCycle (initialLastScrape now interval) interval 0
        = (now - interval, now))
    ∧ (∀ (init interval : Int) (k : Nat),
      windowOfCycle init interval k
        = (lastScrapeAfter init interval k,
            lastScrapeAfter init interval k + interval)
      ∧ lastScrapeAfter init interval (k + 1)
        = (windowOfCycle init interval k).2)
    ∧ (∀ (init interval : Int) (k : Nat),
      (windowOfCycle init interval (k + 1)).1
        = (windowOfCycle init interval k).2)
    ∧ (∀ (init interval : Int) (k : Nat),
      windowOfCycle init interval k
        = (init + (k : Int) * interval, init + ((k : Int) + 1) * interval))
    ∧ (∀ (init interval : Int) (i j : Nat), i ≠ j → ∀ x : Int,
      ¬ (inWindow (windowOfCycle init interval i) x
          ∧ inWindow (windowOfCycle init interval j) x)) := by
  have closed : ∀ (init interval : Int) (k : Nat),
      windowOfCycle init interval k
        = (init + (k : Int) * interval, init + ((k : Int) + 1) * interval) := by
    intro init interval k
    have hlast : ∀ k : Nat, lastScrapeAfter init interval k
        = init + (k : Int) * interval := by
      intro k
      induction k with
      | zero => simp [lastScrapeAfter]
      | succ k ih =>
        simp only [lastScrapeAfter, cycleWindow, ih]
        push_cast
        ring
    simp only [windowOfCycle, cycleWindow, hlast, Prod.mk.injEq, true_and]
    ring
  have disj : ∀ (init interval : Int) (i j : Nat), i < j → ∀ x : Int,
      ¬ (inWindow (windowOfCycle init interval i) x
          ∧ inWindow (windowOfCycle init interval j) x) := by
    intro init interval i j hij x ⟨hi, hj⟩
    rw [closed] at hi hj
    obtain ⟨hi1, hi2⟩ := hi
    obtain ⟨hj1, hj2⟩ := hj
    simp only at hi1 hi2 hj1 hj2
    have hpos : 0 < interval := by nlinarith
    have hle : ((i : Int) + 1) ≤ (j : Int) := by exact_mod_cast hij
    have : init + ((i : Int) + 1) * interval ≤ init + (j : Int) * interval := by
      have := mul_le_mul_of_nonneg_right hle (le_of_lt hpos)
      linarith
    linarith
  refine ⟨?_, ?_, ?_, closed, ?_⟩
  · intro now interval
    simp [windowOfCycle, lastScrapeAfter, cycleWindow, initialLastScrape]
  · intro init interval k
    exact ⟨rfl, rfl⟩
  · intro init interval k
    rfl
  · intro init interval i j hij x h
    rcases Nat.lt_or_ge i j with hlt | hge
    · exact disj init interval i j hlt x h
    · have hlt : j < i := lt_of_le_of_ne hge (fun he => hij he.symm)
      exact disj init interval j i hlt x ⟨h.2, h.1⟩

/-- Witness for C9 at concrete loop parameters. -/
theorem claim_C9_witness :
    windowOfCycle (initialLastScrape 1000 60) 60 0 = (940, 1000)
    ∧ ¬ (inWindow (windowOfCycle 940 60 0) 970
        ∧ inWindow (windowOfCycle 940 60 1) 970) := by
  constructor
  · exact claim_C9.1 1000 60
  · exact claim_C9.2.2.2.2 940 60 0 1 (by decide) 970

end Robotheus
